import Mathlib

/-!
Shallow embedding of the Netpbm repository's rasterization core.

The repository contains two parallel implementations of the `PPM` drawing
suite (here called the part-0 and part-1 variants, after the two source
files).  Pure functions are translated directly; the pixel-visiting loops of
the rasterizers are translated as fuel-indexed structural recursions that
return the exact sequence of coordinates passed to `Set`, and the canvas
operations fold the bounds-checked `Set` over that sequence.  Go's integer
division truncates toward zero, so every translated division uses
`Int.tdiv`.  The Koch and Sierpinski generators compute a few coordinates
with floating-point trigonometry (`math.Sqrt`, `math.Cos`, `math.Atan2`);
those coordinate-producing subexpressions are abstracted as explicit
function parameters (`rot`, `apexH`), and every theorem about the
generators is proved for all values of those parameters, so no statement
depends on floating-point behaviour.
-/

/-- A color pixel, as in `type Pixel struct { R, G, B uint8 }`.  Rasterizers
only copy pixel values, never compute with them, so channels are plain
naturals. -/
structure Pixel where
  R : ℕ
  G : ℕ
  B : ℕ
deriving DecidableEq, Repr

/-- A point in the image, `type Point struct { X, Y int }`. -/
structure Point where
  X : ℤ
  Y : ℤ
deriving DecidableEq, Repr

/-- The PPM image record: `data [][]Pixel`, `width`, `height`,
`magicNumber`, `max`. -/
structure PPM where
  data : List (List Pixel)
  width : ℤ
  height : ℤ
  magicNumber : String
  max : ℕ
deriving DecidableEq, Repr

/-- Write pixel `v` into row `y`, column `x` of a buffer (Go's
`data[y][x] = value` on in-range indices). -/
def writePix (data : List (List Pixel)) (x y : ℕ) (v : Pixel) : List (List Pixel) :=
  data.set y ((data.getD y []).set x v)

/-- Part-0 `Set`: bounds-checked, silently clipping write.
`if x >= 0 && x < ppm.width && y >= 0 && y < ppm.height { ppm.data[y][x] = value }`. -/
def PPM.Set (ppm : PPM) (x y : ℤ) (v : Pixel) : PPM :=
  if 0 ≤ x ∧ x < ppm.width ∧ 0 ≤ y ∧ y < ppm.height then
    { ppm with data := writePix ppm.data x.toNat y.toNat v }
  else ppm

/-- Part-0 `At`: returns `Pixel{}` (the zero pixel) out of range, else
`ppm.data[y][x]`. -/
def PPM.At (ppm : PPM) (x y : ℤ) : Pixel :=
  if 0 ≤ x ∧ x < ppm.width ∧ 0 ≤ y ∧ y < ppm.height then
    (ppm.data.getD y.toNat []).getD x.toNat ⟨0, 0, 0⟩
  else ⟨0, 0, 0⟩

/-- Part-1 `Set`: `ppm.data[y][x] = value` with no bounds check.  A Go
index out of range panics, modelled as `none`. -/
def PPM.Set1 (ppm : PPM) (x y : ℤ) (v : Pixel) : Option PPM :=
  if 0 ≤ y ∧ y.toNat < ppm.data.length ∧ 0 ≤ x ∧ x.toNat < (ppm.data.getD y.toNat []).length
  then some { ppm with data := writePix ppm.data x.toNat y.toNat v }
  else none

/-- Fold the clipping `Set` over a list of visited coordinates: the canvas
effect of a part-0 rasterizer that calls `Set` at exactly these points. -/
def drawPoints (ppm : PPM) (ps : List Point) (c : Pixel) : PPM :=
  ps.foldl (fun im p => im.Set p.X p.Y c) ppm

/-- Fold the unchecked part-1 `Set` over a list of visited coordinates;
`none` as soon as any write is out of range (the Go program panics). -/
def drawPoints1 (ppm : PPM) (ps : List Point) (c : Pixel) : Option PPM :=
  ps.foldlM (fun im p => im.Set1 p.X p.Y c) ppm

/-- Frame equality: two canvases agree on width, height, magic number, max
value, and on the shape of the pixel buffer (row count and every row
length). -/
def SameFrame (a b : PPM) : Prop :=
  a.width = b.width ∧ a.height = b.height ∧ a.magicNumber = b.magicNumber ∧
  a.max = b.max ∧ a.data.map List.length = b.data.map List.length

instance : DecidablePred fun p : PPM × PPM => SameFrame p.1 p.2 := by
  intro p; unfold SameFrame; infer_instance

instance (a b : PPM) : Decidable (SameFrame a b) := by
  unfold SameFrame; infer_instance

/-! ## Bresenham line (`DrawLine`, both variants)

Part 0 keeps `dy = -|y2-y1|`, `err = dx + dy` and steps on `e2 >= dy`
(x) and `e2 <= dx` (y).  Part 1 keeps `dy = |y2-y1|`, `err = dx - dy` and
steps on `e2 > -dy` and `e2 < dx`.  Writing `dy` for the absolute value in
both, the two loops differ exactly in the strictness of the comparisons,
captured by the `strict` flag. -/

/-- One comparison of the line loop: strict (`part 1`) or non-strict
(`part 0`). -/
def stepCond (strict : Bool) (a b : ℤ) : Bool :=
  if strict then decide (a < b) else decide (a ≤ b)

/-- The Bresenham loop body.  Each iteration emits the current pixel,
stops if it is the target, else advances `x` and/or `y` exactly as the
source loop does.  `dx`, `dy` are the absolute deltas; fuel is consumed
once per iteration and is chosen large enough in `linePoints0/1`. -/
def bresGo (strict : Bool) (x2 y2 sx sy dx dy : ℤ) : ℕ → ℤ → ℤ → ℤ → List Point
  | 0, x, y, _ => [⟨x, y⟩]
  | n + 1, x, y, err =>
    if x = x2 ∧ y = y2 then [⟨x, y⟩]
    else
      let e2 := 2 * err
      let dX := stepCond strict (-dy) e2
      let dY := stepCond strict e2 dx
      ⟨x, y⟩ :: bresGo strict x2 y2 sx sy dx dy n
        (if dX then x + sx else x)
        (if dY then y + sy else y)
        ((if dX then err - dy else err) + (if dY then dx else 0))

/-- Part-0 `DrawLine` visit sequence: `sx := -1; if x1 < x2 { sx = 1 }`,
non-strict comparisons. -/
def linePoints0 (p1 p2 : Point) : List Point :=
  let dx := |p2.X - p1.X|
  let dy := |p2.Y - p1.Y|
  let sx : ℤ := if p1.X < p2.X then 1 else -1
  let sy : ℤ := if p1.Y < p2.Y then 1 else -1
  bresGo false p2.X p2.Y sx sy dx dy (max dx dy).toNat p1.X p1.Y (dx - dy)

/-- Part-1 `DrawLine` visit sequence: `sx := 1; if dx < 0 { sx = -1 }`,
strict comparisons. -/
def linePoints1 (p1 p2 : Point) : List Point :=
  let dx := |p2.X - p1.X|
  let dy := |p2.Y - p1.Y|
  let sx : ℤ := if p2.X - p1.X < 0 then -1 else 1
  let sy : ℤ := if p2.Y - p1.Y < 0 then -1 else 1
  bresGo true p2.X p2.Y sx sy dx dy (max dx dy).toNat p1.X p1.Y (dx - dy)

/-! ## Midpoint circle (`DrawCircle`, both variants) -/

/-- The eight `Set` calls one circle-loop iteration makes, in source
order, for loop state `(x, y)` around center `c`. -/
def orbit (c : Point) (s : ℤ × ℤ) : List Point :=
  [⟨c.X + s.1, c.Y + s.2⟩, ⟨c.X + s.2, c.Y + s.1⟩,
   ⟨c.X - s.2, c.Y + s.1⟩, ⟨c.X - s.1, c.Y + s.2⟩,
   ⟨c.X - s.1, c.Y - s.2⟩, ⟨c.X - s.2, c.Y - s.1⟩,
   ⟨c.X + s.2, c.Y - s.1⟩, ⟨c.X + s.1, c.Y - s.2⟩]

/-- Part-0 `DrawCircle` loop: starts at `x = radius-1, y = 0, dx = dy = 1,
err = dx - 2*radius`; while `x >= y` emit the 8 reflections, then
`if err <= 0 { y++; err += dy; dy += 2 }` and
`if err > 0 { x--; dx += 2; err += dx - 2*radius }`. -/
def circleGo0 (c : Point) (radius : ℤ) : ℕ → ℤ → ℤ → ℤ → ℤ → ℤ → List Point
  | 0, _, _, _, _, _ => []
  | fuel + 1, x, y, dx, dy, err =>
    if y ≤ x then
      orbit c (x, y) ++
        (if err ≤ 0 then
          (if err + dy > 0 then
            circleGo0 c radius fuel (x - 1) (y + 1) (dx + 2) (dy + 2) (err + dy + dx + 2 - radius * 2)
          else
            circleGo0 c radius fuel x (y + 1) dx (dy + 2) (err + dy))
        else
          circleGo0 c radius fuel (x - 1) y (dx + 2) dy (err + dx + 2 - radius * 2))
    else []

/-- Part-0 `DrawCircle` visit sequence. -/
def circlePoints0 (c : Point) (radius : ℤ) : List Point :=
  circleGo0 c radius (radius.toNat + 1) (radius - 1) 0 1 1 (1 - radius * 2)

/-- Part-1 `DrawCircle` loop: starts at `x = radius, y = 0, err = 0`;
while `x >= y` emit the 8 reflections, then
`if err <= 0 { y++; err += 2*y+1 }` and `if err > 0 { x--; err -= 2*x+1 }`
(conditions read the updated `err`, updates read the updated `y`/`x`). -/
def circleGo1 (c : Point) : ℕ → ℤ → ℤ → ℤ → List Point
  | 0, _, _, _ => []
  | fuel + 1, x, y, err =>
    if y ≤ x then
      orbit c (x, y) ++
        (if err ≤ 0 then
          (if err + 2 * (y + 1) + 1 > 0 then
            circleGo1 c fuel (x - 1) (y + 1) (err + 2 * (y + 1) + 1 - (2 * (x - 1) + 1))
          else
            circleGo1 c fuel x (y + 1) (err + 2 * (y + 1) + 1))
        else
          circleGo1 c fuel (x - 1) y (err - (2 * (x - 1) + 1)))
    else []

/-- Part-1 `DrawCircle` visit sequence. -/
def circlePoints1 (c : Point) (radius : ℤ) : List Point :=
  circleGo1 c (radius.toNat + 1) radius 0 0

/-- The eight midpoint-circle reflections of `p` about center `c`:
offsets `(±a, ±b)` and `(±b, ±a)` where `(a, b) = p - c`. -/
def reflections (c p : Point) : List Point :=
  orbit c (p.X - c.X, p.Y - c.Y)

/-! ## Rectangles -/

/-- Part-0 `DrawRectangle` visit sequence: top/bottom rows then left/right
columns, via counting loops `x < p1.X + width`, `y < p1.Y + height`. -/
def rectanglePoints0 (p1 : Point) (width height : ℤ) : List Point :=
  ((List.range width.toNat).flatMap fun k : ℕ =>
    [⟨p1.X + (k : ℤ), p1.Y⟩, ⟨p1.X + (k : ℤ), p1.Y + height - 1⟩]) ++
  ((List.range height.toNat).flatMap fun k : ℕ =>
    [⟨p1.X, p1.Y + (k : ℤ)⟩, ⟨p1.X + width - 1, p1.Y + (k : ℤ)⟩])

/-- Part-1 `DrawRectangle`: four `DrawLine` calls around the corner
points. -/
def rectanglePoints1 (p1 : Point) (width height : ℤ) : List Point :=
  let p2 : Point := ⟨p1.X + width - 1, p1.Y⟩
  let p3 : Point := ⟨p1.X + width - 1, p1.Y + height - 1⟩
  let p4 : Point := ⟨p1.X, p1.Y + height - 1⟩
  linePoints1 p1 p2 ++ linePoints1 p2 p3 ++ linePoints1 p3 p4 ++ linePoints1 p4 p1

/-- `DrawFilledRectangle` (same loops in both variants): row-major fill of
`height` rows of `width` pixels. -/
def filledRectanglePoints (p1 : Point) (width height : ℤ) : List Point :=
  (List.range height.toNat).flatMap fun j : ℕ =>
    (List.range width.toNat).map fun i : ℕ =>
      (⟨p1.X + (i : ℤ), p1.Y + (j : ℤ)⟩ : Point)

/-! ## Filled triangle (part 0) -/

/-- The x-interpolation helper inside part-0 `DrawFilledTriangle`:
`if y1 == y2 { return x1 }; return x1 + (x2-x1)*(y-y1)/(y2-y1)`. -/
def interpolate (y y1 y2 x1 x2 : ℤ) : ℤ :=
  if y1 = y2 then x1 else x1 + Int.tdiv ((x2 - x1) * (y - y1)) (y2 - y1)

/-- `interpolate` instrumented to report a division by zero: `none` iff
the code would evaluate `/(y2-y1)` with `y2-y1 = 0`. -/
def interpolateChecked (y y1 y2 x1 x2 : ℤ) : Option ℤ :=
  if y1 = y2 then some x1
  else if y2 - y1 = 0 then none
  else some (x1 + Int.tdiv ((x2 - x1) * (y - y1)) (y2 - y1))

/-- `sortPointsByY` of part-0 `DrawFilledTriangle`: three conditional
swaps. -/
def sortPointsByY (p1 p2 p3 : Point) : Point × Point × Point :=
  let (q1, q2) := if p1.Y > p2.Y then (p2, p1) else (p1, p2)
  let (r1, r3) := if q1.Y > p3.Y then (p3, q1) else (q1, p3)
  let (s2, s3) := if q2.Y > r3.Y then (r3, q2) else (q2, r3)
  (r1, s2, s3)

/-- The ascending integer range `[a, b]` (the pixels of the loop
`for x := a; x <= b; x++`). -/
def spanList (a b : ℤ) : List ℤ :=
  (List.range (b - a + 1).toNat).map fun k : ℕ => a + (k : ℤ)

/-- Part-0 `DrawFilledTriangle` visit sequence: sort the vertices by `y`,
then for each scanline interpolate the two boundary xs and fill the span
between their min and max. -/
def filledTrianglePoints0 (p1 p2 p3 : Point) : List Point :=
  let s := sortPointsByY p1 p2 p3
  let q1 := s.1
  let q2 := s.2.1
  let q3 := s.2.2
  (List.range (q3.Y - q1.Y + 1).toNat).flatMap fun k : ℕ =>
    let y := q1.Y + (k : ℤ)
    let xStart := if y < q2.Y then interpolate y q1.Y q2.Y q1.X q2.X
                  else interpolate y q2.Y q3.Y q2.X q3.X
    let xEnd := interpolate y q1.Y q3.Y q1.X q3.X
    (spanList (min xStart xEnd) (max xStart xEnd)).map fun x => (⟨x, y⟩ : Point)

/-- `DrawTriangle` (both variants draw the three edges); this is also
part-1 `DrawFilledTriangle`, whose body is the same three `DrawLine`
calls. -/
def trianglePoints1 (p1 p2 p3 : Point) : List Point :=
  linePoints1 p1 p2 ++ linePoints1 p2 p3 ++ linePoints1 p3 p1

/-- Part-0 `DrawTriangle`: three part-0 `DrawLine` calls. -/
def trianglePoints0 (p1 p2 p3 : Point) : List Point :=
  linePoints0 p1 p2 ++ linePoints0 p2 p3 ++ linePoints0 p3 p1

/-! ## Polygons -/

/-- Part-0 `DrawPolygon` visit sequence: no drawing when `len(points) < 3`,
else lines between consecutive points and a closing line. -/
def polygonPoints0 (points : List Point) : List Point :=
  if points.length < 3 then []
  else
    ((points.zip points.tail).flatMap fun q => linePoints0 q.1 q.2) ++
      linePoints0 (points.getLast?.getD ⟨0, 0⟩) (points.headD ⟨0, 0⟩)

/-- Part-1 `DrawPolygon`: no vertex-count check.  On the empty list the Go
code indexes `points[len(points)-1] = points[-1]` and panics (`none`);
otherwise it draws consecutive lines and the closing line. -/
def polygonPoints1 (points : List Point) : Option (List Point) :=
  match points with
  | [] => none
  | p :: ps =>
    some (((points.zip points.tail).flatMap fun q => linePoints1 q.1 q.2) ++
      linePoints1 ((p :: ps).getLast (by simp)) p)

/-- The `getIntersections` closure of part-0 `DrawFilledPolygon`: for each
edge `points[i] → points[(i+1)%n]`, skip horizontal edges, keep edges whose
y-span half-open-brackets `y`, and record
`p1.X + (y-p1.Y)*(p2.X-p1.X)/(p2.Y-p1.Y)` (truncated division). -/
def getIntersections0 (points : List Point) (y : ℤ) : List ℤ :=
  (points.zip (points.rotate 1)).filterMap fun q =>
    let p1 := q.1
    let p2 := q.2
    if p1.Y = p2.Y then none
    else if (p1.Y ≤ y ∧ p2.Y > y) ∨ (p1.Y > y ∧ p2.Y ≤ y) then
      some (p1.X + Int.tdiv ((y - p1.Y) * (p2.X - p1.X)) (p2.Y - p1.Y))
    else none

/-- `sort.Ints`: sort ascending. -/
def sortInts (xs : List ℤ) : List ℤ :=
  List.insertionSort (· ≤ ·) xs

/-- The even-odd pairing loop
`for i := 0; i < len; i += 2 { if i+1 < len { fill xs[i]..xs[i+1] } }`:
consecutive disjoint pairs produce inclusive spans; a trailing unpaired
element produces nothing. -/
def pairFill : List ℤ → List ℤ
  | a :: b :: rest => spanList a b ++ pairFill rest
  | _ => []

/-- Part-0 `DrawFilledPolygon` visit sequence.  On the empty list the Go
code evaluates `points[0].Y` and panics (`none`); otherwise it scans
`minY..maxY` and fills the paired sorted intersections on each scanline. -/
def filledPolygonPoints0 (points : List Point) : Option (List Point) :=
  match points with
  | [] => none
  | p :: _ =>
    let minY := points.foldl (fun m q => min m q.Y) p.Y
    let maxY := points.foldl (fun m q => max m q.Y) p.Y
    some ((List.range (maxY - minY + 1).toNat).flatMap fun k : ℕ =>
      let y := minY + (k : ℤ)
      (pairFill (sortInts (getIntersections0 points y))).map fun x => (⟨x, y⟩ : Point))

/-- Part-1 `findIntersections`, for one edge: skip horizontal edges
(`p1.Y == p2.Y`), swap the endpoints so `p1.Y < p2.Y`, drop edges entirely
below or above the row range (`y1 >= ppm.height || y2 < 0`), clip the low
endpoint to row `0` and the high endpoint to row `height-1` (each with a
truncated division along the edge; the second clip reads the already
updated `x1`, `y1`), then compute the integer slope `m = (x2-x1)/(y2-y1)`
and walk `y` from `y1` to `y2`, appending `x` to row `y`'s list and adding
`m`.  The result is the `(row, x)` pairs appended, in order.  `none` marks
the runs where the Go code divides by zero and panics: the second clip when
`p2.Y` equals the clipped `y1`, and the slope when the clipped edge has
zero height (e.g. an edge from `y = -3` to `y = 0` clips to `y1 = y2 = 0`). -/
def findIntersections1 (h : ℤ) (q1 q2 : Point) : Option (List (ℤ × ℤ)) :=
  if q1.Y = q2.Y then some []
  else
    let p1 := if q2.Y < q1.Y then q2 else q1
    let p2 := if q2.Y < q1.Y then q1 else q2
    if h ≤ p1.Y ∨ p2.Y < 0 then some []
    else
      let x1 := if p1.Y < 0 then p1.X + Int.tdiv ((0 - p1.Y) * (p2.X - p1.X)) (p2.Y - p1.Y)
                else p1.X
      let y1 := if p1.Y < 0 then 0 else p1.Y
      if h ≤ p2.Y ∧ p2.Y - y1 = 0 then none
      else
        let x2 := if h ≤ p2.Y then p2.X - Int.tdiv ((p2.Y - h + 1) * (p2.X - x1)) (p2.Y - y1)
                  else p2.X
        let y2 := if h ≤ p2.Y then h - 1 else p2.Y
        if y2 - y1 = 0 then none
        else
          let m := Int.tdiv (x2 - x1) (y2 - y1)
          some ((List.range (y2 - y1 + 1).toNat).map fun k : ℕ =>
            (y1 + (k : ℤ), x1 + (k : ℤ) * m))

/-- The intersection list part-1 `DrawFilledPolygon` has accumulated at row
`y` once every edge `points[i] → points[(i+1)%n]` has been processed in
order (each edge appends at most one `x` per row, so row `y`'s list is the
edge-ordered concatenation of the per-edge contributions at `y`); `none`
if any edge's `findIntersections` panics. -/
def intersections1 (h : ℤ) (points : List Point) (y : ℤ) : Option (List ℤ) := do
  let contribs ← (points.zip (points.rotate 1)).mapM fun q => findIntersections1 h q.1 q.2
  pure ((contribs.flatten.filter fun e => e.1 == y).map Prod.snd)

/-- The pairing loop of part-1 `DrawFilledPolygon`,
`for i := 0; i < len(xs)-1; i += 2 { DrawLine(⟨xs[i],y⟩, ⟨xs[i+1],y⟩) }`:
the list of `(xs[i], xs[i+1])` endpoint pairs for even `i`; a trailing
unpaired element produces no pair. -/
def pairSpans1 : List ℤ → List (ℤ × ℤ)
  | a :: b :: rest => (a, b) :: pairSpans1 rest
  | _ => []

/-- Part-1 `DrawFilledPolygon` visit sequence: bounding rows `minY`
(initialised to `ppm.height`) and `maxY` (initialised to `0`), per-edge
`findIntersections` into a `height`-row table, then for each row
`minY..maxY` sort the row's intersections (`sort.Ints`) and draw a
horizontal `DrawLine` between each even-indexed pair.  `none` when
`make([][]int, height)` has negative length, an edge panics, or a bounding
row lies outside `[0, height)` (the Go code then indexes
`intersections[y]` out of range and panics). -/
def drawFilledPolygon1 (h : ℤ) (points : List Point) : Option (List Point) :=
  if h < 0 then none
  else do
    let minY := points.foldl (fun m q => min m q.Y) h
    let maxY := points.foldl (fun m q => max m q.Y) 0
    let rows ← (List.range (maxY - minY + 1).toNat).mapM fun k : ℕ => do
      let y := minY + (k : ℤ)
      if 0 ≤ y ∧ y < h then
        let xs ← intersections1 h points y
        pure ((pairSpans1 (sortInts xs)).flatMap fun q =>
          linePoints1 ⟨q.1, y⟩ ⟨q.2, y⟩)
      else none
    pure rows.flatten

/-! ## Filled circle (part 1) -/

/-- Part-1 `DrawFilledCircle` loop.  It bounds-checks each of its four
`Set` calls itself against `width`/`height`, so the visit list depends on
the canvas size. -/
def filledCircleGo1 (w h : ℤ) (c : Point) : ℕ → ℤ → ℤ → ℤ → List Point
  | 0, _, _, _ => []
  | fuel + 1, x, y, err =>
    if x < 0 then
      (let inb : Point → List Point := fun p =>
        if 0 ≤ p.X ∧ p.X < w ∧ 0 ≤ p.Y ∧ p.Y < h then [p] else []
      inb ⟨c.X - x, c.Y + y⟩ ++ inb ⟨c.X - x, c.Y - y⟩ ++
        inb ⟨c.X + x, c.Y - y⟩ ++ inb ⟨c.X + x, c.Y + y⟩) ++
      (if err < 0 ∧ 2 * (err + y) - 1 ≤ 0 then
        filledCircleGo1 w h c fuel (x + 1) y (err + (x + 1) * 2 + 1)
      else if err > 0 ∧ 2 * (err - x) - 1 > 0 then
        filledCircleGo1 w h c fuel x (y - 1) (err + 1 - (y - 1) * 2)
      else
        filledCircleGo1 w h c fuel (x + 1) (y - 1) (err + (x + 1) * 2 + 1 + 1 - (y - 1) * 2))
    else []

/-- Part-1 `DrawFilledCircle` visit sequence (fuel bounds the loop; the
frame property below holds for every fuel value). -/
def filledCirclePoints1 (w h : ℤ) (c : Point) (radius : ℤ) : List Point :=
  filledCircleGo1 w h c (4 * radius.toNat + 8) (-radius) 0 (2 - 2 * radius)

/-! ## Fractal generators

`kochRec f` is the common 4-way Koch recursion: `f p1 p2` produces the
three division points `(pa, pc, pb)` and the four recursive segments are
`p1→pa`, `pa→pc`, `pc→pb`, `pb→p2`.  Part 0 computes all three points from
floating-point thirds (abstracted wholesale); part 1 computes `pa`, `pb`
by exact integer thirds and only the rotated apex with floats (abstracted
as `rot`). -/

/-- The 4-way Koch subdivision recursion, returning the leaf segments in
drawing order. -/
def kochRec (f : Point → Point → Point × Point × Point) :
    ℕ → Point → Point → List (Point × Point)
  | 0, p1, p2 => [(p1, p2)]
  | n + 1, p1, p2 =>
    let s := f p1 p2
    kochRec f n p1 s.1 ++ kochRec f n s.1 s.2.1 ++
      kochRec f n s.2.1 s.2.2 ++ kochRec f n s.2.2 p2

/-- Part-1 `drawKochSnowflakeSegment`'s division points: exact integer
trisection; `rot` abstracts the floating-point 60°-rotated apex computed
from the two trisection points. -/
def kochSplit1 (rot : Point → Point → Point) (p1 p2 : Point) :
    Point × Point × Point :=
  let oneThird : Point := ⟨Int.tdiv (2 * p1.X + p2.X) 3, Int.tdiv (2 * p1.Y + p2.Y) 3⟩
  let twoThirds : Point := ⟨Int.tdiv (p1.X + 2 * p2.X) 3, Int.tdiv (p1.Y + 2 * p2.Y) 3⟩
  (oneThird, rot oneThird twoThirds, twoThirds)

/-- Part-1 `drawKochSnowflakeSegment` leaf segments. -/
def kochSeg1 (rot : Point → Point → Point) (n : ℕ) (p1 p2 : Point) :
    List (Point × Point) :=
  kochRec (kochSplit1 rot) n p1 p2

/-- Part-1 `DrawKochSnowflake`: three sides of the initial triangle
`start → start+(width,0) → start+(width/2, apexH width) → start`, each
subdivided at depth `n`.  `apexH` abstracts
`int(math.Sqrt(3)*float64(width)/2)`. -/
def kochSnowflake1 (rot : Point → Point → Point) (apexH : ℤ → ℤ) (n : ℕ)
    (start : Point) (width : ℤ) : List (Point × Point) :=
  let b : Point := ⟨start.X + width, start.Y⟩
  let c : Point := ⟨start.X + Int.tdiv width 2, start.Y + apexH width⟩
  kochSeg1 rot n start b ++ kochSeg1 rot n b c ++ kochSeg1 rot n c start

/-- Part-0 `DrawKochSnowflake`: fixed recursion depth 4 on the three sides
of a triangle whose vertices come from floating-point trigonometry
(abstracted as `v1 v2 v3`), with the fully float-dependent subdivision
abstracted as `f`. -/
def kochSnowflake0 (f : Point → Point → Point × Point × Point)
    (v1 v2 v3 : Point) : List (Point × Point) :=
  kochRec f 4 v1 v2 ++ kochRec f 4 v2 v3 ++ kochRec f 4 v3 v1

/-- Part-1 `drawSierpinskiTriangle`, returning the list of vertex triples
handed to `DrawFilledTriangle` at the depth-0 leaves.  `apexH` abstracts
`int(math.Sqrt(3)*float64(width)/2)`.  At depth `n+1` the code makes FOUR
recursive calls at one-third width: at `start`, at `mid1`, at `mid2`
(computed by the same expression as `mid1`) and at `mid3`. -/
def sierpTriangle (apexH : ℤ → ℤ) : ℕ → Point → ℤ → List (Point × Point × Point)
  | 0, start, width =>
    [(start, ⟨start.X + width, start.Y⟩,
      ⟨start.X + Int.tdiv width 2, start.Y + apexH width⟩)]
  | n + 1, start, width =>
    let mid1 : Point := ⟨Int.tdiv (2 * start.X + start.X + width) 3,
                         Int.tdiv (2 * start.Y + start.Y) 3⟩
    let mid2 : Point := ⟨Int.tdiv (start.X + 2 * start.X + width) 3,
                         Int.tdiv (2 * start.Y + start.Y) 3⟩
    let mid3 : Point := ⟨Int.tdiv (start.X + start.X + Int.tdiv width 2) 2,
                         Int.tdiv (start.Y + start.Y + apexH width) 2⟩
    sierpTriangle apexH n start (Int.tdiv width 3) ++
      sierpTriangle apexH n mid1 (Int.tdiv width 3) ++
      sierpTriangle apexH n mid2 (Int.tdiv width 3) ++
      sierpTriangle apexH n mid3 (Int.tdiv width 3)

/-- The anchors and widths of the recursive calls a depth `n+1` Sierpinski
invocation makes (in call order). -/
def sierpChildren (apexH : ℤ → ℤ) (start : Point) (width : ℤ) :
    List (Point × ℤ) :=
  [(start, Int.tdiv width 3),
   (⟨Int.tdiv (2 * start.X + start.X + width) 3, Int.tdiv (2 * start.Y + start.Y) 3⟩,
    Int.tdiv width 3),
   (⟨Int.tdiv (start.X + 2 * start.X + width) 3, Int.tdiv (2 * start.Y + start.Y) 3⟩,
    Int.tdiv width 3),
   (⟨Int.tdiv (start.X + start.X + Int.tdiv width 2) 2,
     Int.tdiv (start.Y + start.Y + apexH width) 2⟩,
    Int.tdiv width 3)]

/-- Pixels visited by part-1 `DrawKochSnowflake`: one part-1 `DrawLine`
per leaf segment. -/
def kochPixels1 (rot : Point → Point → Point) (apexH : ℤ → ℤ) (n : ℕ)
    (start : Point) (width : ℤ) : List Point :=
  (kochSnowflake1 rot apexH n start width).flatMap fun s => linePoints1 s.1 s.2

/-- Pixels visited by part-1 `DrawSierpinskiTriangle`: each leaf triple is
handed to part-1 `DrawFilledTriangle`, which draws the three edges. -/
def sierpPixels1 (apexH : ℤ → ℤ) (n : ℕ) (start : Point) (width : ℤ) : List Point :=
  (sierpTriangle apexH n start width).flatMap fun t =>
    trianglePoints1 t.1 t.2.1 t.2.2

/-! ## Canvas operations (part-0 suite over the clipping `Set`) -/

/-- Part-0 `DrawLine` on the canvas. -/
def PPM.DrawLine (ppm : PPM) (p1 p2 : Point) (c : Pixel) : PPM :=
  drawPoints ppm (linePoints0 p1 p2) c

/-- Part-0 `DrawRectangle` on the canvas. -/
def PPM.DrawRectangle (ppm : PPM) (p1 : Point) (width height : ℤ) (c : Pixel) : PPM :=
  drawPoints ppm (rectanglePoints0 p1 width height) c

/-- `DrawFilledRectangle` on the canvas. -/
def PPM.DrawFilledRectangle (ppm : PPM) (p1 : Point) (width height : ℤ) (c : Pixel) : PPM :=
  drawPoints ppm (filledRectanglePoints p1 width height) c

/-- Part-0 `DrawCircle` on the canvas. -/
def PPM.DrawCircle (ppm : PPM) (center : Point) (radius : ℤ) (c : Pixel) : PPM :=
  drawPoints ppm (circlePoints0 center radius) c

/-- Part-1 `DrawCircle`'s visit sequence folded over the clipping canvas. -/
def PPM.DrawCircleV1 (ppm : PPM) (center : Point) (radius : ℤ) (c : Pixel) : PPM :=
  drawPoints ppm (circlePoints1 center radius) c

/-- Part-1 `DrawFilledCircle` (its own bounds checks make every write
in-range) folded over the canvas. -/
def PPM.DrawFilledCircle (ppm : PPM) (center : Point) (radius : ℤ) (c : Pixel) : PPM :=
  drawPoints ppm (filledCirclePoints1 ppm.width ppm.height center radius) c

/-- Part-0 `DrawTriangle` on the canvas. -/
def PPM.DrawTriangle (ppm : PPM) (p1 p2 p3 : Point) (c : Pixel) : PPM :=
  drawPoints ppm (trianglePoints0 p1 p2 p3) c

/-- Part-0 `DrawFilledTriangle` on the canvas. -/
def PPM.DrawFilledTriangle (ppm : PPM) (p1 p2 p3 : Point) (c : Pixel) : PPM :=
  drawPoints ppm (filledTrianglePoints0 p1 p2 p3) c

/-- Part-0 `DrawPolygon` on the canvas. -/
def PPM.DrawPolygon (ppm : PPM) (points : List Point) (c : Pixel) : PPM :=
  drawPoints ppm (polygonPoints0 points) c

/-- Part-0 `DrawFilledPolygon` on the canvas (`none` when the Go code
panics on an empty vertex list). -/
def PPM.DrawFilledPolygon (ppm : PPM) (points : List Point) (c : Pixel) : Option PPM :=
  (filledPolygonPoints0 points).map fun ps => drawPoints ppm ps c

/-- Part-1 `DrawKochSnowflake` folded over the clipping canvas. -/
def PPM.DrawKochSnowflake (ppm : PPM) (rot : Point → Point → Point)
    (apexH : ℤ → ℤ) (n : ℕ) (start : Point) (width : ℤ) (c : Pixel) : PPM :=
  drawPoints ppm (kochPixels1 rot apexH n start width) c

/-- Part-1 `DrawSierpinskiTriangle` folded over the clipping canvas. -/
def PPM.DrawSierpinskiTriangle (ppm : PPM) (apexH : ℤ → ℤ) (n : ℕ)
    (start : Point) (width : ℤ) (c : Pixel) : PPM :=
  drawPoints ppm (sierpPixels1 apexH n start width) c

/-- Part-1 `DrawLine` over the unchecked part-1 `Set` (faults, as the Go
code does, if any visited pixel is out of range). -/
def PPM.DrawLineV1 (ppm : PPM) (p1 p2 : Point) (c : Pixel) : Option PPM :=
  drawPoints1 ppm (linePoints1 p1 p2) c

/-- A concrete all-zero 3×3 canvas used in concrete evaluations. -/
def K3 : PPM :=
  ⟨List.replicate 3 (List.replicate 3 ⟨0, 0, 0⟩), 3, 3, "P3", 255⟩

/-- A sample color. -/
def red : Pixel := ⟨255, 0, 0⟩

/-! ## Basic frame lemmas -/

theorem mapLen_getD (data : List (List Pixel)) (y : ℕ) :
    (data.map List.length).getD y 0 = (data.getD y []).length := by
  induction data generalizing y with
  | nil => simp
  | cons r rs ih =>
    cases y with
    | zero => simp
    | succ n => simpa [List.getD] using ih n

theorem set_getD_self (L : List ℕ) (n : ℕ) : L.set n (L.getD n 0) = L := by
  induction L generalizing n with
  | nil => simp
  | cons a as ih =>
    cases n with
    | zero => simp
    | succ n => simpa [List.getD] using ih n

theorem writePix_shape (data : List (List Pixel)) (x y : ℕ) (v : Pixel) :
    (writePix data x y v).map List.length = data.map List.length := by
  unfold writePix
  rw [List.map_set, List.length_set, ← mapLen_getD, set_getD_self]

theorem sameFrame_refl (a : PPM) : SameFrame a a := ⟨rfl, rfl, rfl, rfl, rfl⟩

theorem sameFrame_trans {a b c : PPM} (h1 : SameFrame a b) (h2 : SameFrame b c) :
    SameFrame a c := by
  obtain ⟨w1, h1', m1, x1, d1⟩ := h1
  obtain ⟨w2, h2', m2, x2, d2⟩ := h2
  exact ⟨w1.trans w2, h1'.trans h2', m1.trans m2, x1.trans x2, d1.trans d2⟩

theorem set_frame (ppm : PPM) (x y : ℤ) (v : Pixel) :
    SameFrame ppm (ppm.Set x y v) := by
  unfold PPM.Set
  split
  · exact ⟨rfl, rfl, rfl, rfl, (writePix_shape _ _ _ _).symm⟩
  · exact sameFrame_refl ppm

theorem drawPoints_frame (ps : List Point) (ppm : PPM) (c : Pixel) :
    SameFrame ppm (drawPoints ppm ps c) := by
  induction ps generalizing ppm with
  | nil => exact sameFrame_refl ppm
  | cons p ps ih =>
    exact sameFrame_trans (set_frame ppm p.X p.Y c) (ih (ppm.Set p.X p.Y c))

theorem set1_frame {ppm r : PPM} {x y : ℤ} {v : Pixel}
    (h : ppm.Set1 x y v = some r) : SameFrame ppm r := by
  unfold PPM.Set1 at h
  split at h
  · cases h
    exact ⟨rfl, rfl, rfl, rfl, (writePix_shape _ _ _ _).symm⟩
  · cases h

theorem drawPoints1_frame (ps : List Point) (ppm r : PPM) (c : Pixel)
    (h : drawPoints1 ppm ps c = some r) : SameFrame ppm r := by
  induction ps generalizing ppm with
  | nil =>
    simp only [drawPoints1, List.foldlM_nil, Option.pure_def, Option.some.injEq] at h
    exact h ▸ sameFrame_refl ppm
  | cons p ps ih =>
    simp only [drawPoints1, List.foldlM_cons] at h
    cases hs : ppm.Set1 p.X p.Y c with
    | none => rw [hs] at h; cases h
    | some im =>
      rw [hs] at h
      exact sameFrame_trans (set1_frame hs) (ih im h)

/-! ## Koch segment counting -/

theorem kochRec_length (f : Point → Point → Point × Point × Point) :
    ∀ (n : ℕ) (p1 p2 : Point), (kochRec f n p1 p2).length = 4 ^ n := by
  intro n
  induction n with
  | zero => intro p1 p2; rfl
  | succ n ih =>
    intro p1 p2
    simp only [kochRec, List.length_append, ih]
    ring

/-- Claim C5: for every depth `d ≥ 0`, `DrawKochSnowflake` produces exactly
`3·4^d` leaf line segments — each Koch-side recursion draws one straight
segment at depth 0 and recurses on exactly four sub-segments at depth
`d > 0` — and at depth 0 exactly the three straight sides of the initial
triangle are drawn.  Proved for every abstraction `rot`/`apexH`/`f` of the
floating-point coordinate computations, for the part-1 generator (depth is
a parameter) and the part-0 generator (depth fixed at 4). -/
theorem c5_koch_segment_count :
    ∀ (rot : Point → Point → Point) (apexH : ℤ → ℤ) (n : ℕ) (start : Point)
      (width : ℤ) (f : Point → Point → Point × Point × Point) (v1 v2 v3 : Point),
      (kochSnowflake1 rot apexH n start width).length = 3 * 4 ^ n ∧
      (kochSnowflake0 f v1 v2 v3).length = 3 * 4 ^ 4 ∧
      kochSnowflake1 rot apexH 0 start width =
        [(start, ⟨start.X + width, start.Y⟩),
         (⟨start.X + width, start.Y⟩,
          ⟨start.X + Int.tdiv width 2, start.Y + apexH width⟩),
         (⟨start.X + Int.tdiv width 2, start.Y + apexH width⟩, start)] := by
  intro rot apexH n start width f v1 v2 v3
  refine ⟨?_, ?_, rfl⟩
  · simp only [kochSnowflake1, kochSeg1, List.length_append, kochRec_length]
    ring
  · simp only [kochSnowflake0, List.length_append, kochRec_length]
    ring

/-- Claim C9: the scanline x-interpolation of part-0 `DrawFilledTriangle`
never divides by zero: the guarded division is always defined (the checked
variant always returns `some` of the unchecked value), and against a
zero-height edge (`y1 = y2`) it returns the first endpoint's `x`
unchanged, so the fill is total for all inputs. -/
theorem c9_interpolate_total :
    ∀ y y1 y2 x1 x2 : ℤ,
      interpolateChecked y y1 y2 x1 x2 = some (interpolate y y1 y2 x1 x2) ∧
      interpolate y y1 y1 x1 x2 = x1 := by
  intro y y1 y2 x1 x2
  constructor
  · unfold interpolateChecked interpolate
    by_cases h : y1 = y2
    · simp [h]
    · have : y2 - y1 ≠ 0 := fun hc => h (by omega)
      simp [h, this]
  · simp [interpolate]

/-- Claim C1 (code bug): the part-0 canvas clips silently — `Set` out of
range is a no-op and `At` out of range returns the zero pixel — but the
part-1 `Set` has no bounds check at all: `ppm.data[y][x] = value` panics
out of range (`none`), and part-1 rasterizers such as `DrawLine` pass
arbitrary caller coordinates straight to it, so the clipping policy is not
applied uniformly.  Evaluated at the failing inputs on a 3×3 canvas. -/
theorem c1_set_clipping_policy :
    K3.Set (-1) 0 red = K3 ∧ K3.Set 3 1 red = K3 ∧
    K3.Set 0 (-1) red = K3 ∧ K3.Set 1 3 red = K3 ∧
    K3.At (-1) 0 = ⟨0, 0, 0⟩ ∧ K3.At 0 3 = ⟨0, 0, 0⟩ ∧
    K3.Set1 (-1) 0 red = none ∧ K3.Set1 1 3 red = none ∧
    K3.DrawLineV1 ⟨-1, 0⟩ ⟨1, 0⟩ red = none := by decide

/-- Claim C3 (code bug): part-1 `DrawCircle` at radius 0 sets exactly the
center pixel (eight coincident writes of `(5,5)`), as the claim states,
but part-0 `DrawCircle` starts its loop at `x = radius - 1 = -1 < y = 0`,
so at radius 0 it draws nothing at all. -/
theorem c3_circle_radius_zero :
    circlePoints1 ⟨5, 5⟩ 0 = List.replicate 8 ⟨5, 5⟩ ∧
    circlePoints0 ⟨5, 5⟩ 0 = [] := by decide

/-- Claim C6 (code bug): part-0 `DrawPolygon` does perform no drawing on
fewer than 3 vertices, but part-0 `DrawFilledPolygon` has no vertex-count
check: on two vertices `(0,0),(0,5)` it fills pixels `(0,0)..(0,4)`
(changing the canvas), and on the empty list it panics on `points[0]`
(`none`); part-1 `DrawPolygon` likewise draws a pixel for a single vertex
and panics on the empty list. -/
theorem c6_small_polygon_noop :
    polygonPoints0 [] = [] ∧ polygonPoints0 [⟨1, 1⟩] = [] ∧
    polygonPoints0 [⟨1, 1⟩, ⟨4, 2⟩] = [] ∧
    filledPolygonPoints0 [⟨0, 0⟩, ⟨0, 5⟩] =
      some [⟨0, 0⟩, ⟨0, 1⟩, ⟨0, 2⟩, ⟨0, 3⟩, ⟨0, 4⟩] ∧
    K3.DrawFilledPolygon [⟨0, 0⟩, ⟨0, 2⟩] red ≠ some K3 ∧
    filledPolygonPoints0 [] = none ∧
    polygonPoints1 [⟨1, 1⟩] = some [⟨1, 1⟩] ∧
    polygonPoints1 [] = none := by decide

/-- A concrete integer stand-in for the floating-point apex height
`int(math.Sqrt(3)*float64(width)/2)`, using `√3 ≈ 1.732`; it agrees with
the float at the widths used in the concrete counterexample below. -/
def apexHsqrt (w : ℤ) : ℤ := Int.tdiv (1732 * w) 2000

/-- Claim C4 counterexample: at depth 1 with start `(0,0)` and width 9 the
Sierpinski generator produces FOUR depth-0 sub-triangles, not three, and
its second and third recursive anchors coincide at `(3,0)` (one third of
the way along the base), which is not an edge midpoint. -/
theorem c4_sierpinski_counterexample :
    sierpTriangle apexHsqrt 1 ⟨0, 0⟩ 9 =
      [(⟨0, 0⟩, ⟨3, 0⟩, ⟨1, 2⟩), (⟨3, 0⟩, ⟨6, 0⟩, ⟨4, 2⟩),
       (⟨3, 0⟩, ⟨6, 0⟩, ⟨4, 2⟩), (⟨2, 3⟩, ⟨5, 3⟩, ⟨3, 5⟩)] ∧
    (sierpTriangle apexHsqrt 1 ⟨0, 0⟩ 9).length ≠ 3 := by decide

/-- Claim C4 (corrected): for every depth `n+1` the Sierpinski generator
recurses on FOUR sub-triangles of one-third the width at depth `n` — at
the original vertex, twice at the point one third along the base edge
(the second and third anchors are computed by the same expression), and at
the halved-coordinate midpoint of the left edge — and at depth 0 it
invokes `DrawFilledTriangle` on the equilateral triangle anchored at the
start point with the given width.  Proved for every abstraction `apexH` of
the floating-point apex height. -/
theorem c4_sierpinski_subdivision :
    ∀ (apexH : ℤ → ℤ) (n : ℕ) (start : Point) (width : ℤ),
      sierpTriangle apexH (n + 1) start width =
        (sierpChildren apexH start width).flatMap
          (fun pw => sierpTriangle apexH n pw.1 pw.2) ∧
      (sierpChildren apexH start width).length = 4 ∧
      (sierpChildren apexH start width).map Prod.fst =
        [start,
         ⟨Int.tdiv (3 * start.X + width) 3, Int.tdiv (3 * start.Y) 3⟩,
         ⟨Int.tdiv (3 * start.X + width) 3, Int.tdiv (3 * start.Y) 3⟩,
         ⟨Int.tdiv (2 * start.X + Int.tdiv width 2) 2,
          Int.tdiv (2 * start.Y + apexH width) 2⟩] ∧
      (sierpChildren apexH start width).map Prod.snd =
        List.replicate 4 (Int.tdiv width 3) ∧
      sierpTriangle apexH 0 start width =
        [(start, ⟨start.X + width, start.Y⟩,
          ⟨start.X + Int.tdiv width 2, start.Y + apexH width⟩)] := by
  intro apexH n start width
  refine ⟨?_, rfl, ?_, rfl, rfl⟩
  · simp only [sierpTriangle, sierpChildren, List.flatMap_cons, List.flatMap_nil,
      List.append_nil, List.append_assoc]
  · simp only [sierpChildren, List.map_cons, List.map_nil]
    have h1 : 2 * start.X + start.X + width = 3 * start.X + width := by ring
    have h2 : 2 * start.Y + start.Y = 3 * start.Y := by ring
    have h3 : start.X + 2 * start.X + width = 3 * start.X + width := by ring
    have h4 : start.X + start.X + Int.tdiv width 2 =
        2 * start.X + Int.tdiv width 2 := by ring
    have h5 : start.Y + start.Y + apexH width = 2 * start.Y + apexH width := by ring
    rw [h1, h2, h3, h4, h5]

/-! ## Scanline pairing (filled polygon) -/

theorem spanList_mem (a b z : ℤ) : z ∈ spanList a b ↔ a ≤ z ∧ z ≤ b := by
  simp only [spanList, List.mem_map, List.mem_range]
  constructor
  · rintro ⟨k, hk, rfl⟩
    omega
  · rintro ⟨h1, h2⟩
    exact ⟨(z - a).toNat, by omega, by omega⟩

theorem pairFill_mem : ∀ (xs : List ℤ) (z : ℤ),
    z ∈ pairFill xs ↔
      ∃ k : ℕ, 2 * k + 1 < xs.length ∧
        xs.getD (2 * k) 0 ≤ z ∧ z ≤ xs.getD (2 * k + 1) 0
  | [], z => by
    simp [pairFill]
  | [a], z => by
    constructor
    · intro h
      exact absurd h (by rw [show pairFill [a] = [] from rfl]; exact List.not_mem_nil z)
    · rintro ⟨k, hk, -, -⟩
      rw [List.length_singleton] at hk
      omega
  | a :: b :: rest, z => by
    have ih := pairFill_mem rest z
    have e0 : (2 : ℕ) * 0 = 0 := rfl
    have e2 : ∀ k : ℕ, 2 * (k + 1) = (2 * k + 1) + 1 := by omega
    simp only [pairFill, List.mem_append, ih, spanList_mem]
    constructor
    · rintro (⟨h1, h2⟩ | ⟨k, hk, h1, h2⟩)
      · refine ⟨0, ?_, ?_, ?_⟩
        · rw [List.length_cons, List.length_cons]
          omega
        · rw [e0, List.getD_cons_zero]
          exact h1
        · rw [e0, List.getD_cons_succ, List.getD_cons_zero]
          exact h2
      · refine ⟨k + 1, ?_, ?_, ?_⟩
        · rw [List.length_cons, List.length_cons]
          omega
        · rw [e2 k, List.getD_cons_succ, List.getD_cons_succ]
          exact h1
        · rw [e2 k, List.getD_cons_succ, List.getD_cons_succ]
          exact h2
    · rintro ⟨k, hk, h1, h2⟩
      cases k with
      | zero =>
        left
        rw [e0, List.getD_cons_zero] at h1
        rw [e0, List.getD_cons_succ, List.getD_cons_zero] at h2
        exact ⟨h1, h2⟩
      | succ k =>
        right
        rw [e2 k, List.getD_cons_succ, List.getD_cons_succ] at h1
        rw [e2 k, List.getD_cons_succ, List.getD_cons_succ] at h2
        refine ⟨k, ?_, h1, h2⟩
        rw [List.length_cons, List.length_cons] at hk
        omega

theorem pairFill_take : ∀ xs : List ℤ,
    pairFill xs = pairFill (xs.take (2 * (xs.length / 2)))
  | [] => rfl
  | [a] => by
    rw [show 2 * (([a] : List ℤ).length / 2) = 0 by rw [List.length_singleton]]
    rfl
  | a :: b :: rest => by
    have e : 2 * ((a :: b :: rest).length / 2) = 2 * (rest.length / 2) + 1 + 1 := by
      simp only [List.length_cons]
      omega
    rw [e, List.take_succ_cons, List.take_succ_cons]
    simp only [pairFill]
    rw [← pairFill_take rest]

theorem pairSpans1_mem : ∀ (xs : List ℤ) (p : ℤ × ℤ),
    p ∈ pairSpans1 xs ↔
      ∃ k : ℕ, 2 * k + 1 < xs.length ∧
        p = (xs.getD (2 * k) 0, xs.getD (2 * k + 1) 0)
  | [], p => by
    simp [pairSpans1]
  | [a], p => by
    constructor
    · intro hmem
      exact absurd hmem (by rw [show pairSpans1 [a] = [] from rfl]; exact List.not_mem_nil p)
    · rintro ⟨k, hk, -⟩
      rw [List.length_singleton] at hk
      omega
  | a :: b :: rest, p => by
    have ih := pairSpans1_mem rest p
    have e0 : (2 : ℕ) * 0 = 0 := rfl
    have e2 : ∀ k : ℕ, 2 * (k + 1) = (2 * k + 1) + 1 := by omega
    simp only [pairSpans1, List.mem_cons, ih]
    constructor
    · rintro (rfl | ⟨k, hk, rfl⟩)
      · refine ⟨0, ?_, ?_⟩
        · rw [List.length_cons, List.length_cons]
          omega
        · rw [e0, List.getD_cons_zero, List.getD_cons_succ, List.getD_cons_zero]
      · refine ⟨k + 1, ?_, ?_⟩
        · rw [List.length_cons, List.length_cons]
          omega
        · rw [e2 k, List.getD_cons_succ, List.getD_cons_succ,
              List.getD_cons_succ, List.getD_cons_succ]
    · rintro ⟨k, hk, rfl⟩
      cases k with
      | zero =>
        left
        rw [e0, List.getD_cons_zero, List.getD_cons_succ, List.getD_cons_zero]
      | succ k =>
        right
        refine ⟨k, ?_, ?_⟩
        · rw [List.length_cons, List.length_cons] at hk
          omega
        · rw [e2 k, List.getD_cons_succ, List.getD_cons_succ,
              List.getD_cons_succ, List.getD_cons_succ]

theorem pairSpans1_take : ∀ xs : List ℤ,
    pairSpans1 xs = pairSpans1 (xs.take (2 * (xs.length / 2)))
  | [] => rfl
  | [a] => by
    rw [show 2 * (([a] : List ℤ).length / 2) = 0 by rw [List.length_singleton]]
    rfl
  | a :: b :: rest => by
    have e : 2 * ((a :: b :: rest).length / 2) = 2 * (rest.length / 2) + 1 + 1 := by
      simp only [List.length_cons]
      omega
    rw [e, List.take_succ_cons, List.take_succ_cons]
    simp only [pairSpans1]
    rw [← pairSpans1_take rest]

theorem pairFill_eq_pairSpans1 : ∀ xs : List ℤ,
    pairFill xs = (pairSpans1 xs).flatMap fun q => spanList q.1 q.2
  | [] => rfl
  | [_] => rfl
  | a :: b :: rest => by
    simp only [pairFill, pairSpans1, List.flatMap_cons]
    rw [pairFill_eq_pairSpans1 rest]

theorem pairSpans1_le : ∀ (xs : List ℤ), List.Sorted (· ≤ ·) xs →
    ∀ p ∈ pairSpans1 xs, p.1 ≤ p.2
  | [], _, p, hp => absurd hp (List.not_mem_nil p)
  | [a], _, p, hp =>
    absurd hp (by rw [show pairSpans1 [a] = [] from rfl]; exact List.not_mem_nil p)
  | a :: b :: rest, hs, p, hp => by
    rcases List.mem_cons.mp hp with rfl | hp2
    · exact List.rel_of_sorted_cons hs b (List.mem_cons_self b rest)
    · exact pairSpans1_le rest ((List.sorted_cons.mp (List.sorted_cons.mp hs).2).2) p hp2

theorem stepCond_true_eq (a b : ℤ) : stepCond true a b = decide (a < b) := rfl

theorem stepCond_false_eq (a b : ℤ) : stepCond false a b = decide (a ≤ b) := rfl

theorem bresGo_horiz (y b dx : ℤ) (hdx : 0 < dx) :
    ∀ (n : ℕ) (x : ℤ), x + (n : ℤ) = b →
      bresGo true b y 1 1 dx 0 n x y dx =
        (List.range (n + 1)).map fun k : ℕ => (⟨x + (k : ℤ), y⟩ : Point) := by
  intro n
  induction n with
  | zero =>
    intro x _
    simp [bresGo, show List.range 1 = [0] from by decide]
  | succ n ih =>
    intro x hxb
    have hne : ¬(x = b ∧ True) := fun hc => by
      have hx := hc.1
      omega
    simp only [bresGo]
    rw [if_neg hne]
    have hdX : stepCond true (-(0 : ℤ)) (2 * dx) = true := by
      rw [stepCond_true_eq, decide_eq_true_eq]
      omega
    have hdY : ¬(stepCond true (2 * dx) dx = true) := by
      rw [stepCond_true_eq, decide_eq_true_eq]
      omega
    rw [if_pos hdX, if_pos hdX]
    rw [if_neg hdY, if_neg hdY]
    have ee : dx - 0 + 0 = dx := by ring
    rw [ee]
    rw [ih (x + 1) (by push_cast at hxb ⊢; omega)]
    rw [List.range_succ_eq_map (n + 1), List.map_cons, List.map_map]
    have h0 : (⟨x + ((0 : ℕ) : ℤ), y⟩ : Point) = ⟨x, y⟩ := by
      simp
    rw [h0]
    refine congrArg (List.cons _) (List.map_congr_left ?_)
    intro k _
    simp only [Function.comp_apply, Point.mk.injEq]
    constructor
    · push_cast
      ring
    · trivial

/-- A part-1 `DrawLine` between two points of the same row with `a ≤ b`
visits exactly the pixels `(a, y), (a+1, y), ..., (b, y)`. -/
theorem linePoints1_horizontal (a b y : ℤ) (hab : a ≤ b) :
    linePoints1 ⟨a, y⟩ ⟨b, y⟩ = (spanList a b).map fun x => (⟨x, y⟩ : Point) := by
  rcases eq_or_lt_of_le hab with rfl | hlt
  · show bresGo true a y _ _ _ _ _ a y _ = _
    have h0 : |a - a| = 0 := by simp
    simp only [h0, sub_self, abs_zero, max_self, Int.toNat_zero]
    simp [bresGo, spanList, show List.range 1 = [0] from by decide]
  · show bresGo true b y _ _ (|b - a|) (|y - y|) _ a y _ = _
    have hyy : |y - y| = 0 := by simp
    have hba : |b - a| = b - a := abs_of_pos (by omega)
    have hsx : ¬(b - a < 0) := by omega
    have hsy : ¬(y - y < 0) := by omega
    simp only [hyy, hba, if_neg hsx, if_neg hsy, sub_zero,
               max_eq_left (by omega : (0 : ℤ) ≤ b - a)]
    rw [bresGo_horiz y b (b - a) (by omega) (b - a).toNat a (by omega)]
    simp only [spanList, List.map_map]
    have hn : (b - a).toNat + 1 = (b - a + 1).toNat := by omega
    rw [hn]
    rfl

theorem pairDraw_eq : ∀ (L : List (ℤ × ℤ)) (y : ℤ), (∀ p ∈ L, p.1 ≤ p.2) →
    (L.flatMap fun q => linePoints1 ⟨q.1, y⟩ ⟨q.2, y⟩) =
      (L.flatMap fun q => spanList q.1 q.2).map fun x => (⟨x, y⟩ : Point)
  | [], _, _ => rfl
  | q :: rest, y, hle => by
    simp only [List.flatMap_cons, List.map_append]
    rw [linePoints1_horizontal q.1 q.2 y (hle q (List.mem_cons_self q rest)),
        pairDraw_eq rest y fun p hp => hle p (List.mem_cons_of_mem q hp)]

/-- The drawing pass of one part-1 scanline: the `DrawLine` calls between
the even-indexed pairs of the sorted intersection list put down exactly the
pixels of the paired spans. -/
theorem rowFill1_eq (y : ℤ) (xs : List ℤ) :
    ((pairSpans1 (sortInts xs)).flatMap fun q => linePoints1 ⟨q.1, y⟩ ⟨q.2, y⟩) =
      (pairFill (sortInts xs)).map fun x => (⟨x, y⟩ : Point) := by
  rw [pairFill_eq_pairSpans1]
  exact pairDraw_eq _ y fun p hp =>
    pairSpans1_le _ (List.sorted_insertionSort _ _) p hp

/-- Claim C7: in both `DrawFilledPolygon` variants, every scanline's
intersections are sorted ascending and filled as paired spans, and an odd
trailing intersection produces no span.  Part 0 (`getIntersections0`,
`sortInts`, `pairFill`): the list is sorted, a pixel `z` is filled exactly
when it lies in a span `[xs_2k, xs_2k+1]` between an even-indexed
intersection and its successor, and the pairing only ever reads the
even-length prefix.  Part 1 (`intersections1`, `sortInts`, `pairSpans1`,
the per-row kernel of `drawFilledPolygon1`): the per-row list is sorted,
the drawn pairs are exactly `(xs_2k, xs_2k+1)` for even indices, the
pairing only ever reads the even-length prefix, the pairs cover the same
spans as part 0's fill (`pairFill = pairSpans1` followed by `spanList`),
and the horizontal `DrawLine` calls of a scanline put down exactly the
pixels of those paired spans. -/
theorem c7_scanline_pairing :
    ∀ (points : List Point) (hgt y z : ℤ) (p : ℤ × ℤ) (xs : List ℤ),
      List.Sorted (· ≤ ·) (sortInts (getIntersections0 points y)) ∧
      (z ∈ pairFill (sortInts (getIntersections0 points y)) ↔
        ∃ k : ℕ, 2 * k + 1 < (sortInts (getIntersections0 points y)).length ∧
          (sortInts (getIntersections0 points y)).getD (2 * k) 0 ≤ z ∧
          z ≤ (sortInts (getIntersections0 points y)).getD (2 * k + 1) 0) ∧
      pairFill (sortInts (getIntersections0 points y)) =
        pairFill ((sortInts (getIntersections0 points y)).take
          (2 * ((sortInts (getIntersections0 points y)).length / 2))) ∧
      List.Sorted (· ≤ ·) (sortInts ((intersections1 hgt points y).getD [])) ∧
      (p ∈ pairSpans1 (sortInts ((intersections1 hgt points y).getD [])) ↔
        ∃ k : ℕ, 2 * k + 1 < (sortInts ((intersections1 hgt points y).getD [])).length ∧
          p = ((sortInts ((intersections1 hgt points y).getD [])).getD (2 * k) 0,
               (sortInts ((intersections1 hgt points y).getD [])).getD (2 * k + 1) 0)) ∧
      pairSpans1 (sortInts ((intersections1 hgt points y).getD [])) =
        pairSpans1 ((sortInts ((intersections1 hgt points y).getD [])).take
          (2 * ((sortInts ((intersections1 hgt points y).getD [])).length / 2))) ∧
      pairFill xs = ((pairSpans1 xs).flatMap fun q => spanList q.1 q.2) ∧
      ((pairSpans1 (sortInts xs)).flatMap fun q => linePoints1 ⟨q.1, y⟩ ⟨q.2, y⟩) =
        (pairFill (sortInts xs)).map fun x => (⟨x, y⟩ : Point) := by
  intro points hgt y z p xs
  exact ⟨List.sorted_insertionSort _ _, pairFill_mem _ z, pairFill_take _,
    List.sorted_insertionSort _ _, pairSpans1_mem _ p, pairSpans1_take _,
    pairFill_eq_pairSpans1 xs, rowFill1_eq y xs⟩

/-! ## Circle symmetry -/

/-- The dihedral orbit of an offset pair: the eight signed/swapped
variants of `(s.1, s.2)`, in the order the circle loops emit them. -/
def pairOrbit (s : ℤ × ℤ) : List (ℤ × ℤ) :=
  [(s.1, s.2), (s.2, s.1), (-s.2, s.1), (-s.1, s.2),
   (-s.1, -s.2), (-s.2, -s.1), (s.2, -s.1), (s.1, -s.2)]

set_option maxHeartbeats 1000000 in
theorem pairOrbit_closed (s t u : ℤ × ℤ) (ht : t ∈ pairOrbit s)
    (hu : u ∈ pairOrbit t) : u ∈ pairOrbit s := by
  obtain ⟨a, b⟩ := s
  simp only [pairOrbit, List.mem_cons, List.not_mem_nil, or_false] at ht hu ⊢
  rcases ht with h | h | h | h | h | h | h | h <;> subst h <;>
    rcases hu with g | g | g | g | g | g | g | g <;> subst g <;>
    simp [neg_neg, Prod.mk.injEq]

theorem mem_orbit_iff (c q : Point) (s : ℤ × ℤ) :
    q ∈ orbit c s ↔ (q.X - c.X, q.Y - c.Y) ∈ pairOrbit s := by
  obtain ⟨cx, cy⟩ := c
  obtain ⟨a, b⟩ := s
  simp only [orbit, pairOrbit, List.mem_cons, List.not_mem_nil, or_false]
  constructor
  · rintro (h | h | h | h | h | h | h | h) <;> subst h <;> simp
  · obtain ⟨qx, qy⟩ := q
    simp only [Point.mk.injEq, Prod.mk.injEq]
    rintro (g | g | g | g | g | g | g | g) <;> obtain ⟨g1, g2⟩ := g <;> omega

theorem orbit_reflections_closed (c : Point) (s : ℤ × ℤ) (p : Point)
    (hp : p ∈ orbit c s) (q : Point) (hq : q ∈ reflections c p) :
    q ∈ orbit c s := by
  rw [mem_orbit_iff] at hp ⊢
  rw [reflections, mem_orbit_iff] at hq
  exact pairOrbit_closed _ _ _ hp hq

theorem circleGo0_closed (c : Point) (radius : ℤ) :
    ∀ (fuel : ℕ) (x y dx dy err : ℤ) (p q : Point),
      p ∈ circleGo0 c radius fuel x y dx dy err → q ∈ reflections c p →
      q ∈ circleGo0 c radius fuel x y dx dy err := by
  intro fuel
  induction fuel with
  | zero =>
    intro x y dx dy err p q hp _
    simp [circleGo0] at hp
  | succ n ih =>
    intro x y dx dy err p q hp hq
    simp only [circleGo0] at hp ⊢
    by_cases hyx : y ≤ x
    · rw [if_pos hyx] at hp ⊢
      rcases List.mem_append.mp hp with h | h
      · exact List.mem_append_left _ (orbit_reflections_closed c (x, y) p h q hq)
      · refine List.mem_append_right _ ?_
        split_ifs at h ⊢ <;> exact ih _ _ _ _ _ p q h hq
    · rw [if_neg hyx] at hp
      simp at hp

theorem circleGo1_closed (c : Point) :
    ∀ (fuel : ℕ) (x y err : ℤ) (p q : Point),
      p ∈ circleGo1 c fuel x y err → q ∈ reflections c p →
      q ∈ circleGo1 c fuel x y err := by
  intro fuel
  induction fuel with
  | zero =>
    intro x y err p q hp _
    simp [circleGo1] at hp
  | succ n ih =>
    intro x y err p q hp hq
    simp only [circleGo1] at hp ⊢
    by_cases hyx : y ≤ x
    · rw [if_pos hyx] at hp ⊢
      rcases List.mem_append.mp hp with h | h
      · exact List.mem_append_left _ (orbit_reflections_closed c (x, y) p h q hq)
      · refine List.mem_append_right _ ?_
        split_ifs at h ⊢ <;> exact ih _ _ _ p q h hq
    · rw [if_neg hyx] at hp
      simp at hp

/-- Claim C8: for every center and radius, the set of pixels visited by
`DrawCircle` (either variant) is closed under the eight midpoint-circle
reflections about the center: whenever `(c.X+dx, c.Y+dy)` is drawn, so
are the seven other points with offsets `(±dx, ±dy)` and `(±dy, ±dx)`. -/
theorem c8_circle_symmetry :
    (∀ (c : Point) (r : ℤ) (p q : Point),
      p ∈ circlePoints0 c r → q ∈ reflections c p → q ∈ circlePoints0 c r) ∧
    (∀ (c : Point) (r : ℤ) (p q : Point),
      p ∈ circlePoints1 c r → q ∈ reflections c p → q ∈ circlePoints1 c r) := by
  constructor
  · intro c r p q hp hq
    exact circleGo0_closed c r _ _ _ _ _ _ p q hp hq
  · intro c r p q hp hq
    exact circleGo1_closed c _ _ _ _ p q hp hq

/-- Witness for C8 at a concrete circle: the reflection of the drawn pixel
`(8,5)` is drawn, for a radius-4 part-0 circle and a radius-3 part-1
circle centered at `(5,5)`. -/
theorem c8_circle_symmetry_witness :
    (⟨5, 2⟩ : Point) ∈ circlePoints0 ⟨5, 5⟩ 4 ∧
    (⟨2, 5⟩ : Point) ∈ circlePoints1 ⟨5, 5⟩ 3 :=
  ⟨c8_circle_symmetry.1 ⟨5, 5⟩ 4 ⟨8, 5⟩ ⟨5, 2⟩ (by decide) (by decide),
   c8_circle_symmetry.2 ⟨5, 5⟩ 3 ⟨8, 5⟩ ⟨2, 5⟩ (by decide) (by decide)⟩

/-! ## Frame preservation -/

/-- Claim C10: every drawing operation leaves the canvas's width, height,
magic number and max value unchanged and preserves the buffer shape (the
row count and every row's length), for every input geometry; for the
part-1 operations that run over the unchecked `Set`, the same holds
whenever the operation completes (otherwise the result defaults to the
untouched canvas).  Only pixel values are ever modified. -/
theorem c10_frame_preservation :
    ∀ (ppm : PPM) (c : Pixel),
      (∀ p1 p2, SameFrame ppm (ppm.DrawLine p1 p2 c)) ∧
      (∀ p w h, SameFrame ppm (ppm.DrawRectangle p w h c)) ∧
      (∀ p w h, SameFrame ppm (drawPoints ppm (rectanglePoints1 p w h) c)) ∧
      (∀ p w h, SameFrame ppm (ppm.DrawFilledRectangle p w h c)) ∧
      (∀ ctr r, SameFrame ppm (ppm.DrawCircle ctr r c)) ∧
      (∀ ctr r, SameFrame ppm (ppm.DrawCircleV1 ctr r c)) ∧
      (∀ ctr r, SameFrame ppm (ppm.DrawFilledCircle ctr r c)) ∧
      (∀ p1 p2 p3, SameFrame ppm (ppm.DrawTriangle p1 p2 p3 c)) ∧
      (∀ p1 p2 p3, SameFrame ppm (drawPoints ppm (trianglePoints1 p1 p2 p3) c)) ∧
      (∀ p1 p2 p3, SameFrame ppm (ppm.DrawFilledTriangle p1 p2 p3 c)) ∧
      (∀ pts, SameFrame ppm (ppm.DrawPolygon pts c)) ∧
      (∀ pts, SameFrame ppm ((ppm.DrawFilledPolygon pts c).getD ppm)) ∧
      (∀ rot apexH n start width,
        SameFrame ppm (ppm.DrawKochSnowflake rot apexH n start width c)) ∧
      (∀ apexH n start width,
        SameFrame ppm (ppm.DrawSierpinskiTriangle apexH n start width c)) ∧
      (∀ ps, SameFrame ppm ((drawPoints1 ppm ps c).getD ppm)) ∧
      (∀ p1 p2, SameFrame ppm ((ppm.DrawLineV1 p1 p2 c).getD ppm)) := by
  intro ppm c
  have hopt : ∀ ps : List Point, SameFrame ppm ((drawPoints1 ppm ps c).getD ppm) := by
    intro ps
    cases h : drawPoints1 ppm ps c with
    | none => exact sameFrame_refl ppm
    | some r => exact drawPoints1_frame ps ppm r c h
  refine ⟨fun p1 p2 => drawPoints_frame _ _ _, fun p w h => drawPoints_frame _ _ _,
    fun p w h => drawPoints_frame _ _ _, fun p w h => drawPoints_frame _ _ _,
    fun ctr r => drawPoints_frame _ _ _, fun ctr r => drawPoints_frame _ _ _,
    fun ctr r => drawPoints_frame _ _ _, fun p1 p2 p3 => drawPoints_frame _ _ _,
    fun p1 p2 p3 => drawPoints_frame _ _ _, fun p1 p2 p3 => drawPoints_frame _ _ _,
    fun pts => drawPoints_frame _ _ _, ?_,
    fun rot apexH n start width => drawPoints_frame _ _ _,
    fun apexH n start width => drawPoints_frame _ _ _,
    hopt, fun p1 p2 => hopt _⟩
  intro pts
  unfold PPM.DrawFilledPolygon
  cases filledPolygonPoints0 pts with
  | none => exact sameFrame_refl ppm
  | some ps => exact drawPoints_frame ps ppm c

/-! ## Bresenham line correctness (C2) -/

theorem bresGo_headq (strict : Bool) (x2 y2 sx sy dx dy : ℤ) :
    ∀ (n : ℕ) (x y err : ℤ),
      (bresGo strict x2 y2 sx sy dx dy n x y err).head? = some ⟨x, y⟩ := by
  intro n x y err
  cases n with
  | zero => rfl
  | succ n =>
    simp only [bresGo]
    split
    · rfl
    · rfl

theorem bresGo_major (strict : Bool) (x2 y2 sx sy dx dy : ℤ)
    (hsx : sx = 1 ∨ sx = -1) (hsy : sy = 1 ∨ sy = -1)
    (hdy0 : 0 ≤ dy) (hdd : dy ≤ dx) :
    ∀ (n : ℕ) (i j : ℤ),
      0 ≤ i → i ≤ dx → 0 ≤ j → j ≤ dy →
      -dx ≤ 2 * (j * dx - i * dy) → 2 * (j * dx - i * dy) ≤ dx →
      (strict = true → dx = dy → j * dx = i * dy) →
      (n : ℤ) = dx - i →
      (bresGo strict x2 y2 sx sy dx dy n
        (x2 - sx * (dx - i)) (y2 - sy * (dy - j)) (dx - dy - i * dy + j * dx)).length = n + 1 ∧
      (bresGo strict x2 y2 sx sy dx dy n
        (x2 - sx * (dx - i)) (y2 - sy * (dy - j)) (dx - dy - i * dy + j * dx)).getLast?
        = some ⟨x2, y2⟩ ∧
      List.Chain' (fun a b => b.X = a.X + sx ∧ (b.Y = a.Y ∨ b.Y = a.Y + sy))
        (bresGo strict x2 y2 sx sy dx dy n
          (x2 - sx * (dx - i)) (y2 - sy * (dy - j)) (dx - dy - i * dy + j * dx)) := by
  intro n
  induction n with
  | zero =>
    intro i j hi0 hidx hj0 hjdy hlo hhi hstrict hn
    have hieq : i = dx := by push_cast at hn; omega
    rw [hieq] at hlo hhi
    have hjeq : j = dy := by
      by_cases hdxz : dx = 0
      · omega
      · have hdxpos : 0 < dx := by omega
        by_contra hne
        rcases lt_or_gt_of_ne hne with hlt | hgt
        · have h1 : j - dy ≤ -1 := by omega
          have h3 : 2 * dx * (j - dy) ≤ 2 * dx * (-1) :=
            mul_le_mul_of_nonneg_left h1 (by positivity)
          linarith
        · have h1 : 1 ≤ j - dy := by omega
          have h3 : 2 * dx * 1 ≤ 2 * dx * (j - dy) :=
            mul_le_mul_of_nonneg_left h1 (by positivity)
          linarith
    have e1 : x2 - sx * (dx - i) = x2 := by rw [hieq]; ring
    have e2 : y2 - sy * (dy - j) = y2 := by rw [hjeq]; ring
    rw [e1, e2]
    exact ⟨rfl, rfl, List.chain'_singleton _⟩
  | succ n ih =>
    intro i j hi0 hidx hj0 hjdy hlo hhi hstrict hn
    have hilt : i < dx := by push_cast at hn; omega
    have hdxpos : 0 < dx := by omega
    have hxne : x2 - sx * (dx - i) ≠ x2 := by
      rcases hsx with rfl | rfl <;> intro h <;> omega
    simp only [bresGo]
    rw [if_neg (fun hc => hxne hc.1)]
    have hdX : stepCond strict (-dy) (2 * (dx - dy - i * dy + j * dx)) = true := by
      cases strict with
      | false =>
        rw [stepCond_false_eq, decide_eq_true_eq]
        linarith
      | true =>
        rw [stepCond_true_eq, decide_eq_true_eq]
        by_cases hdxdy : dx = dy
        · have hD := hstrict rfl hdxdy
          linarith
        · have : dy < dx := by omega
          linarith
    rw [if_pos hdX, if_pos hdX]
    by_cases hY : stepCond strict (2 * (dx - dy - i * dy + j * dx)) dx = true
    · -- both axes step
      rw [if_pos hY, if_pos hY]
      have hYw : 2 * (dx - dy - i * dy + j * dx) ≤ dx := by
        cases strict with
        | false =>
          rw [stepCond_false_eq, decide_eq_true_eq] at hY
          exact hY
        | true =>
          rw [stepCond_true_eq, decide_eq_true_eq] at hY
          exact le_of_lt hY
      have hjlt : j < dy := by
        by_contra hge
        have hjeq : j = dy := by omega
        have key : 0 ≤ dy * (dx - (i + 1)) := mul_nonneg hdy0 (by omega)
        have keyx : dy * (dx - (i + 1)) = dy * dx - i * dy - dy := by ring
        rw [hjeq] at hYw
        linarith
      have ex : x2 - sx * (dx - i) + sx = x2 - sx * (dx - (i + 1)) := by ring
      have ey : y2 - sy * (dy - j) + sy = y2 - sy * (dy - (j + 1)) := by ring
      have ee : dx - dy - i * dy + j * dx - dy + dx
          = dx - dy - (i + 1) * dy + (j + 1) * dx := by ring
      rw [ex, ey, ee]
      have IH := ih (i + 1) (j + 1) (by omega) (by omega) (by omega) (by omega)
        (by have e : 2 * ((j + 1) * dx - (i + 1) * dy)
              = 2 * (j * dx - i * dy) + 2 * dx - 2 * dy := by ring
            linarith)
        (by have e : 2 * ((j + 1) * dx - (i + 1) * dy)
              = 2 * (dx - dy - i * dy + j * dx) := by ring
            linarith)
        (by
          intro hs hdxdy
          have hp := hstrict hs hdxdy
          have e1 : (j + 1) * dx = j * dx + dx := by ring
          have e2 : (i + 1) * dy = i * dy + dy := by ring
          rw [e1, e2, hp, hdxdy])
        (by push_cast at hn ⊢; omega)
      obtain ⟨IH1, IH2, IH3⟩ := IH
      cases hL : bresGo strict x2 y2 sx sy dx dy n
          (x2 - sx * (dx - (i + 1))) (y2 - sy * (dy - (j + 1)))
          (dx - dy - (i + 1) * dy + (j + 1) * dx) with
      | nil => rw [hL] at IH1; simp at IH1
      | cons h t =>
        rw [hL] at IH1 IH2 IH3
        have hh : h = ⟨x2 - sx * (dx - (i + 1)), y2 - sy * (dy - (j + 1))⟩ := by
          have hq := bresGo_headq strict x2 y2 sx sy dx dy n
            (x2 - sx * (dx - (i + 1))) (y2 - sy * (dy - (j + 1)))
            (dx - dy - (i + 1) * dy + (j + 1) * dx)
          rw [hL] at hq
          simpa using hq
        refine ⟨by simpa using IH1, by rw [List.getLast?_cons_cons]; exact IH2, ?_⟩
        rw [List.chain'_cons']
        refine ⟨?_, IH3⟩
        intro b hb
        obtain rfl : h = b := by simpa using hb
        rw [hh]
        exact ⟨ex.symm, Or.inr ey.symm⟩
    · -- only the x axis steps
      rw [if_neg hY, if_neg hY]
      have hYw : dx ≤ 2 * (dx - dy - i * dy + j * dx) := by
        cases strict with
        | false =>
          by_contra hcon
          exact hY (by rw [stepCond_false_eq, decide_eq_true_eq]; omega)
        | true =>
          by_contra hcon
          exact hY (by rw [stepCond_true_eq, decide_eq_true_eq]; omega)
      have ex : x2 - sx * (dx - i) + sx = x2 - sx * (dx - (i + 1)) := by ring
      rw [ex, add_zero]
      have ee2 : dx - dy - i * dy + j * dx - dy = dx - dy - (i + 1) * dy + j * dx := by
        ring
      rw [ee2]
      have IH := ih (i + 1) j (by omega) (by omega) hj0 hjdy
        (by have e : 2 * (j * dx - (i + 1) * dy)
              = 2 * (j * dx - i * dy) - 2 * dy := by ring
            linarith)
        (by have e : 2 * (j * dx - (i + 1) * dy)
              = 2 * (j * dx - i * dy) - 2 * dy := by ring
            linarith)
        (by
          intro hs hdxdy
          exfalso
          apply hY
          have hD := hstrict hs hdxdy
          rw [hs, stepCond_true_eq, decide_eq_true_eq]
          linarith [hD])
        (by push_cast at hn ⊢; omega)
      obtain ⟨IH1, IH2, IH3⟩ := IH
      cases hL : bresGo strict x2 y2 sx sy dx dy n
          (x2 - sx * (dx - (i + 1))) (y2 - sy * (dy - j))
          (dx - dy - (i + 1) * dy + j * dx) with
      | nil => rw [hL] at IH1; simp at IH1
      | cons h t =>
        rw [hL] at IH1 IH2 IH3
        have hh : h = ⟨x2 - sx * (dx - (i + 1)), y2 - sy * (dy - j)⟩ := by
          have hq := bresGo_headq strict x2 y2 sx sy dx dy n
            (x2 - sx * (dx - (i + 1))) (y2 - sy * (dy - j))
            (dx - dy - (i + 1) * dy + j * dx)
          rw [hL] at hq
          simpa using hq
        refine ⟨by simpa using IH1, by rw [List.getLast?_cons_cons]; exact IH2, ?_⟩
        rw [List.chain'_cons']
        refine ⟨?_, IH3⟩
        intro b hb
        obtain rfl : h = b := by simpa using hb
        rw [hh]
        exact ⟨ex.symm, Or.inl rfl⟩

/-- Coordinate swap, used to transfer the x-major Bresenham lemma to
y-major lines. -/
def pswap (p : Point) : Point := ⟨p.Y, p.X⟩

theorem bresGo_swap (strict : Bool) (x2 y2 sx sy dx dy : ℤ) :
    ∀ (n : ℕ) (x y err : ℤ),
      bresGo strict x2 y2 sx sy dx dy n x y err =
        (bresGo strict y2 x2 sy sx dy dx n y x (-err)).map pswap := by
  intro n
  induction n with
  | zero => intro x y err; rfl
  | succ n ih =>
    intro x y err
    simp only [bresGo]
    by_cases hend : x = x2 ∧ y = y2
    · rw [if_pos hend, if_pos ⟨hend.2, hend.1⟩]
      rfl
    · rw [if_neg hend,
        if_neg (show ¬(y = y2 ∧ x = x2) from fun hc => hend ⟨hc.2, hc.1⟩)]
      rw [List.map_cons]
      have hb1 : stepCond strict (-dx) (2 * -err) = stepCond strict (2 * err) dx := by
        cases strict with
        | false =>
          rw [stepCond_false_eq, stepCond_false_eq, decide_eq_decide]
          omega
        | true =>
          rw [stepCond_true_eq, stepCond_true_eq, decide_eq_decide]
          omega
      have hb2 : stepCond strict (2 * -err) dy = stepCond strict (-dy) (2 * err) := by
        cases strict with
        | false =>
          rw [stepCond_false_eq, stepCond_false_eq, decide_eq_decide]
          omega
        | true =>
          rw [stepCond_true_eq, stepCond_true_eq, decide_eq_decide]
          omega
      rw [hb1, hb2]
      have he : (if stepCond strict (2 * err) dx = true then -err - dx else -err) +
          (if stepCond strict (-dy) (2 * err) = true then dy else 0) =
          -((if stepCond strict (-dy) (2 * err) = true then err - dy else err) +
            (if stepCond strict (2 * err) dx = true then dx else 0)) := by
        split_ifs <;> ring
      rw [he]
      rw [← ih]
      rfl

theorem chain'_step_nodup (sx sy : ℤ) (hsx : sx = 1 ∨ sx = -1) (L : List Point)
    (h : List.Chain' (fun a b => b.X = a.X + sx ∧ (b.Y = a.Y ∨ b.Y = a.Y + sy)) L) :
    L.Nodup := by
  rcases hsx with rfl | rfl
  · have h' : List.Chain' (fun a b : Point => a.X < b.X) L :=
      List.Chain'.imp (fun a b hab => by obtain ⟨h1, -⟩ := hab; omega) h
    haveI : IsTrans Point fun a b : Point => a.X < b.X :=
      ⟨fun a b c h1 h2 => lt_trans h1 h2⟩
    have hp := List.chain'_iff_pairwise.mp h'
    exact hp.imp fun hab he => by rw [he] at hab; exact lt_irrefl _ hab
  · have h' : List.Chain' (fun a b : Point => b.X < a.X) L :=
      List.Chain'.imp (fun a b hab => by obtain ⟨h1, -⟩ := hab; omega) h
    haveI : IsTrans Point fun a b : Point => b.X < a.X :=
      ⟨fun a b c h1 h2 => lt_trans h2 h1⟩
    have hp := List.chain'_iff_pairwise.mp h'
    exact hp.imp fun hab he => by rw [he] at hab; exact lt_irrefl _ hab

/-- The properties claimed for a `DrawLine` visit sequence `L` from `p1`
to `p2`: pixel count `max(|dx|,|dy|)+1`, starts at `p1`, ends at `p2`, no
pixel visited twice, and consecutive pixels are distinct 8-neighbors. -/
def LineSpec (p1 p2 : Point) (L : List Point) : Prop :=
  L.length = max (p2.X - p1.X).natAbs (p2.Y - p1.Y).natAbs + 1 ∧
  L.head? = some p1 ∧ L.getLast? = some p2 ∧ L.Nodup ∧
  List.Chain' (fun a b => a ≠ b ∧ (b.X - a.X).natAbs ≤ 1 ∧ (b.Y - a.Y).natAbs ≤ 1) L

theorem pswap_injective : Function.Injective pswap := by
  intro a b h
  cases a
  cases b
  simpa [pswap, Point.mk.injEq, and_comm] using h

theorem bres_spec (strict : Bool) (p1 p2 : Point) (sx sy : ℤ)
    (hsx : sx = 1 ∨ sx = -1) (hsy : sy = 1 ∨ sy = -1)
    (hx : sx * |p2.X - p1.X| = p2.X - p1.X) (hy : sy * |p2.Y - p1.Y| = p2.Y - p1.Y) :
    LineSpec p1 p2 (bresGo strict p2.X p2.Y sx sy |p2.X - p1.X| |p2.Y - p1.Y|
      (max |p2.X - p1.X| |p2.Y - p1.Y|).toNat p1.X p1.Y
      (|p2.X - p1.X| - |p2.Y - p1.Y|)) := by
  have hdx0 : 0 ≤ |p2.X - p1.X| := abs_nonneg _
  have hdy0 : 0 ≤ |p2.Y - p1.Y| := abs_nonneg _
  rcases le_or_lt |p2.Y - p1.Y| |p2.X - p1.X| with hmaj | hmaj
  · -- x-major case
    have hfuel : ((max |p2.X - p1.X| |p2.Y - p1.Y|).toNat : ℤ)
        = |p2.X - p1.X| - 0 := by
      rw [max_eq_left hmaj, Int.toNat_of_nonneg hdx0]
      ring
    have H := bresGo_major strict p2.X p2.Y sx sy |p2.X - p1.X| |p2.Y - p1.Y|
      hsx hsy hdy0 hmaj (max |p2.X - p1.X| |p2.Y - p1.Y|).toNat 0 0
      le_rfl hdx0 le_rfl hdy0 (by simp) (by simpa using hdx0)
      (fun _ _ => by ring) hfuel
    have e1 : p2.X - sx * (|p2.X - p1.X| - 0) = p1.X := by rw [sub_zero, hx]; ring
    have e2 : p2.Y - sy * (|p2.Y - p1.Y| - 0) = p1.Y := by rw [sub_zero, hy]; ring
    have e3 : |p2.X - p1.X| - |p2.Y - p1.Y| - 0 * |p2.Y - p1.Y| + 0 * |p2.X - p1.X|
        = |p2.X - p1.X| - |p2.Y - p1.Y| := by ring
    rw [e1, e2, e3] at H
    obtain ⟨H1, H2, H3⟩ := H
    refine ⟨?_, ?_, ?_, ?_, ?_⟩
    · have hax : |p2.X - p1.X| = ((p2.X - p1.X).natAbs : ℤ) := Int.abs_eq_natAbs _
      have hay : |p2.Y - p1.Y| = ((p2.Y - p1.Y).natAbs : ℤ) := Int.abs_eq_natAbs _
      rw [H1, hax, hay]
      omega
    · rw [bresGo_headq]
    · exact H2
    · exact chain'_step_nodup sx sy hsx _ H3
    · refine List.Chain'.imp ?_ H3
      intro a b hab
      obtain ⟨h1, h2 | h2⟩ := hab <;>
        refine ⟨fun he => ?_, ?_, ?_⟩ <;>
        rcases hsx with rfl | rfl <;> rcases hsy with rfl | rfl <;>
        first
          | (rw [he] at h1; omega)
          | omega
  · -- y-major case: swap coordinates
    rw [bresGo_swap]
    have hneg : -(|p2.X - p1.X| - |p2.Y - p1.Y|) = |p2.Y - p1.Y| - |p2.X - p1.X| := by
      ring
    rw [hneg]
    have hmaj' : |p2.X - p1.X| ≤ |p2.Y - p1.Y| := le_of_lt hmaj
    have hfuel : ((max |p2.X - p1.X| |p2.Y - p1.Y|).toNat : ℤ)
        = |p2.Y - p1.Y| - 0 := by
      rw [max_eq_right hmaj', Int.toNat_of_nonneg hdy0]
      ring
    have H := bresGo_major strict p2.Y p2.X sy sx |p2.Y - p1.Y| |p2.X - p1.X|
      hsy hsx hdx0 hmaj' (max |p2.X - p1.X| |p2.Y - p1.Y|).toNat 0 0
      le_rfl hdy0 le_rfl hdx0 (by simp) (by simpa using hdy0)
      (fun _ _ => by ring) hfuel
    have e1 : p2.Y - sy * (|p2.Y - p1.Y| - 0) = p1.Y := by rw [sub_zero, hy]; ring
    have e2 : p2.X - sx * (|p2.X - p1.X| - 0) = p1.X := by rw [sub_zero, hx]; ring
    have e3 : |p2.Y - p1.Y| - |p2.X - p1.X| - 0 * |p2.X - p1.X| + 0 * |p2.Y - p1.Y|
        = |p2.Y - p1.Y| - |p2.X - p1.X| := by ring
    rw [e1, e2, e3] at H
    obtain ⟨H1, H2, H3⟩ := H
    refine ⟨?_, ?_, ?_, ?_, ?_⟩
    · have hax : |p2.X - p1.X| = ((p2.X - p1.X).natAbs : ℤ) := Int.abs_eq_natAbs _
      have hay : |p2.Y - p1.Y| = ((p2.Y - p1.Y).natAbs : ℤ) := Int.abs_eq_natAbs _
      rw [List.length_map, H1, hax, hay]
      omega
    · rw [List.head?_map, bresGo_headq]
      rfl
    · rw [List.getLast?_map, H2]
      rfl
    · exact (chain'_step_nodup sy sx hsy _ H3).map pswap_injective
    · rw [List.chain'_map]
      refine List.Chain'.imp ?_ H3
      intro a b hab
      obtain ⟨h1, h2 | h2⟩ := hab <;>
        refine ⟨fun he => ?_, ?_, ?_⟩ <;>
        rcases hsx with rfl | rfl <;> rcases hsy with rfl | rfl <;>
        first
          | (have hxx := congrArg Point.X he
             have hyy := congrArg Point.Y he
             simp only [pswap] at hxx hyy
             omega)
          | (simp only [pswap]; omega)

/-- Claim C2: for any two points, `DrawLine` (both variants) visits a
connected 8-neighbor path from `p1` to `p2` whose pixel count is
`max(|x2-x1|,|y2-y1|)+1`, with both endpoints included and no pixel
visited twice (`Nodup`), consecutive pixels being distinct and at
Chebyshev distance 1; in the degenerate case `p1 = p2` exactly the single
pixel `p1` is visited. -/
theorem c2_drawline_path :
    ∀ p1 p2 : Point,
      LineSpec p1 p2 (linePoints0 p1 p2) ∧ LineSpec p1 p2 (linePoints1 p1 p2) ∧
      linePoints0 p1 p1 = [p1] ∧ linePoints1 p1 p1 = [p1] := by
  intro p1 p2
  refine ⟨?_, ?_, ?_, ?_⟩
  · have hsx1 : (if p1.X < p2.X then (1 : ℤ) else -1) = 1 ∨
        (if p1.X < p2.X then (1 : ℤ) else -1) = -1 := by
      split
      · exact Or.inl rfl
      · exact Or.inr rfl
    have hsy1 : (if p1.Y < p2.Y then (1 : ℤ) else -1) = 1 ∨
        (if p1.Y < p2.Y then (1 : ℤ) else -1) = -1 := by
      split
      · exact Or.inl rfl
      · exact Or.inr rfl
    have hx : (if p1.X < p2.X then (1 : ℤ) else -1) * |p2.X - p1.X| = p2.X - p1.X := by
      by_cases hc : p1.X < p2.X
      · rw [if_pos hc, one_mul, abs_of_nonneg (by omega)]
      · rw [if_neg hc, abs_of_nonpos (by omega)]
        ring
    have hy : (if p1.Y < p2.Y then (1 : ℤ) else -1) * |p2.Y - p1.Y| = p2.Y - p1.Y := by
      by_cases hc : p1.Y < p2.Y
      · rw [if_pos hc, one_mul, abs_of_nonneg (by omega)]
      · rw [if_neg hc, abs_of_nonpos (by omega)]
        ring
    exact bres_spec false p1 p2 _ _ hsx1 hsy1 hx hy
  · have hsx1 : (if p2.X - p1.X < 0 then (-1 : ℤ) else 1) = 1 ∨
        (if p2.X - p1.X < 0 then (-1 : ℤ) else 1) = -1 := by
      split
      · exact Or.inr rfl
      · exact Or.inl rfl
    have hsy1 : (if p2.Y - p1.Y < 0 then (-1 : ℤ) else 1) = 1 ∨
        (if p2.Y - p1.Y < 0 then (-1 : ℤ) else 1) = -1 := by
      split
      · exact Or.inr rfl
      · exact Or.inl rfl
    have hx : (if p2.X - p1.X < 0 then (-1 : ℤ) else 1) * |p2.X - p1.X|
        = p2.X - p1.X := by
      by_cases hc : p2.X - p1.X < 0
      · rw [if_pos hc, abs_of_nonpos (by omega)]
        ring
      · rw [if_neg hc, one_mul, abs_of_nonneg (by omega)]
    have hy : (if p2.Y - p1.Y < 0 then (-1 : ℤ) else 1) * |p2.Y - p1.Y|
        = p2.Y - p1.Y := by
      by_cases hc : p2.Y - p1.Y < 0
      · rw [if_pos hc, abs_of_nonpos (by omega)]
        ring
      · rw [if_neg hc, one_mul, abs_of_nonneg (by omega)]
    exact bres_spec true p1 p2 _ _ hsx1 hsy1 hx hy
  · simp only [linePoints0, sub_self, abs_zero, max_self, Int.toNat_zero]
    rfl
  · simp only [linePoints1, sub_self, abs_zero, max_self, Int.toNat_zero]
    rfl
